import Mathlib

/-!
Verification of the loss-model repository (FloodFinJava/loss-model),
file src/code/calc_losses.py, against its natural-language specification.

The Python code is shallowly embedded over the rationals:
- pandas float columns become values in the rationals, with a missing entry
  (NaN) modelled as the value none of an Option type;
- the depth-to-bucket quantization at line 52-54 (index / LOSS_CURVE_RES
  followed by a cast through np.int32) and at line 71
  (int(asset_row[depth_col] / LOSS_CURVE_RES)) are both embedded as
  truncation toward zero, which is what a float-to-int cast performs in
  numpy and in Python for in-range values;
- a raised Python exception is modelled as the error case of Except;
- the pandas series holding a loss curve is modelled as an association
  list from integer bucket index to Option-valued loss (none = NaN cell).

The arithmetic operations on the rationals are made semireducible so
that concrete executions of the embedded code can be settled by kernel
reduction.
-/

attribute [local semireducible] Rat.inv Rat.mul Rat.add Rat.sub

namespace LossModel

/-- Truncation toward zero of a rational number, computed on the
normalized numerator and denominator with truncating integer division. -/
def ratTrunc (q : ℚ) : ℤ := q.num.tdiv q.den

/-- Embedding of the numpy cast Index.map(np.int32) applied to a float
value (calc_losses.py line 54): a C-style float-to-integer conversion,
which truncates toward zero (in-range values; overflow of the 32-bit
representation is outside the model). -/
def np_int32 (q : ℚ) : ℤ := ratTrunc q

/-- Embedding of the Python builtin int() applied to a float
(calc_losses.py line 71): truncation toward zero. -/
def py_int (q : ℚ) : ℤ := ratTrunc q

/-- Bucket index computed at curve-construction time,
calc_losses.py lines 52-54: loss_curve1.index = loss_curve1.index /
LOSS_CURVE_RES; loss_curve1.index = loss_curve1.index.map(np.int32). -/
def constructionBucket (res d : ℚ) : ℤ := np_int32 (d / res)

/-- Bucket index computed at lookup time, calc_losses.py line 71:
depth_cm = int(asset_row[depth_col] / LOSS_CURVE_RES). -/
def resolverBucket (res d : ℚ) : ℤ := py_int (d / res)

/-- Modelled from the spec: the quantization rule the spec
prescribes, round(depth / resolution) to the nearest integer.  Kept
separate from the definitions above, which follow the source, so the
two rules can be compared. -/
def specRoundBucket (res d : ℚ) : ℤ := round (d / res)

theorem ratTrunc_eq_floor {q : ℚ} (h : 0 ≤ q) : ratTrunc q = ⌊q⌋ := by
  rw [ratTrunc, Rat.floor_def]
  exact Int.tdiv_eq_ediv (Rat.num_nonneg.mpr h) (Int.natCast_nonneg _)

theorem ratTrunc_intCast (k : ℤ) : ratTrunc (k : ℚ) = k := by
  rw [ratTrunc, Rat.num_intCast, Rat.den_intCast]
  exact Int.tdiv_one k

/-- C2, counterexample: for depth 19 at resolution 10 the code's
bucket index is 1 (truncation of 1.9) at both the construction site and
the lookup site, while rounding to the nearest integer gives 2; so the
code does not compute round(depth / resolution). -/
theorem bucket_not_round_at_19 :
    constructionBucket 10 19 = 1 ∧ resolverBucket 10 19 = 1 ∧
    specRoundBucket 10 19 = 2 ∧
    constructionBucket 10 19 ≠ specRoundBucket 10 19 := by
  have hr : specRoundBucket 10 19 = 2 := by
    rw [specRoundBucket, round_eq]
    refine Int.floor_eq_iff.mpr ⟨by norm_num, by norm_num⟩
  have hc : constructionBucket 10 19 = 1 := by decide
  have hl : resolverBucket 10 19 = 1 := by decide
  exact ⟨hc, hl, hr, by rw [hc, hr]; decide⟩

/-- C2, amended: both curve construction and the Resolver compute the
bucket index by truncation toward zero of depth / resolution (the
int()/np.int32 cast), the same rule at both sites; for a nonnegative
quotient the bucket is the unique integer k with k ≤ depth/res < k+1. -/
theorem bucket_is_truncation (res d : ℚ) :
    constructionBucket res d = ratTrunc (d / res) ∧
    resolverBucket res d = ratTrunc (d / res) ∧
    (0 ≤ d / res →
      (constructionBucket res d : ℚ) ≤ d / res ∧
      d / res < (constructionBucket res d : ℚ) + 1) := by
  refine ⟨rfl, rfl, fun h => ?_⟩
  have hf : constructionBucket res d = ⌊d / res⌋ := ratTrunc_eq_floor h
  constructor
  · rw [hf]; exact Int.floor_le _
  · rw [hf]; exact Int.lt_floor_add_one _

/-- Witness for bucket_is_truncation at resolution 10, depth 19. -/
theorem bucket_is_truncation_witness :
    constructionBucket 10 19 = ratTrunc ((19 : ℚ) / 10) ∧
    resolverBucket 10 19 = ratTrunc ((19 : ℚ) / 10) ∧
    ((constructionBucket 10 19 : ℚ) ≤ (19 : ℚ) / 10 ∧
      (19 : ℚ) / 10 < (constructionBucket 10 19 : ℚ) + 1) := by
  have h := bucket_is_truncation 10 19
  exact ⟨h.1, h.2.1, h.2.2 (by norm_num)⟩

/-- C3: for every resolution and every depth, the construction-time
quantization (lines 52-54) and the lookup-time quantization (line 71)
agree, both being truncation toward zero of depth / resolution; in
particular a depth that is an exact multiple k * res of a positive
resolution maps to bucket k at both sites, so no off-by-one mismatch
between construction-time and lookup-time bucketing can occur. -/
theorem quantization_consistent :
    (∀ res d : ℚ, constructionBucket res d = resolverBucket res d) ∧
    (∀ res : ℚ, 0 < res → ∀ k : ℤ,
      constructionBucket res ((k : ℚ) * res) = k ∧
      resolverBucket res ((k : ℚ) * res) = k) := by
  refine ⟨fun _ _ => rfl, fun res hres k => ?_⟩
  have hne : res ≠ 0 := ne_of_gt hres
  have hq : ((k : ℚ) * res) / res = (k : ℚ) := mul_div_cancel_right₀ _ hne
  constructor
  · rw [constructionBucket, np_int32, hq, ratTrunc_intCast]
  · rw [resolverBucket, py_int, hq, ratTrunc_intCast]

/-- Witness for quantization_consistent: at resolution 10, the boundary
depth 30 = 3 * 10 lands in bucket 3 at both sites. -/
theorem quantization_consistent_witness :
    constructionBucket 10 (((3 : ℤ) : ℚ) * 10) = 3 ∧
    resolverBucket 10 (((3 : ℤ) : ℚ) * 10) = 3 :=
  quantization_consistent.2 10 (by norm_num) 3

/-- Floor of a rational, computed on numerator and denominator. -/
def ratFloor (q : ℚ) : ℤ := q.num / (q.den : ℤ)

/-- Ceiling of a rational, computed as minus the floor of the negation. -/
def ratCeil (q : ℚ) : ℤ := -(ratFloor (-q))

theorem ratFloor_eq (q : ℚ) : ratFloor q = ⌊q⌋ := Rat.floor_def.symm

theorem ratCeil_eq (q : ℚ) : ratCeil q = ⌈q⌉ := by
  rw [ratCeil, ratFloor_eq, ← Int.ceil_neg, neg_neg]

/-- Embedding of np.arange(maxd, step=res) at line 48: the synthetic
grid 0, res, 2·res, …, with ceil(maxd/res) entries, so that maxd itself
is excluded. -/
def arangeQ (maxd res : ℚ) : List ℚ :=
  (List.range (ratCeil (maxd / res)).toNat).map (fun i => (i : ℚ) * res)

/-- Insertion into a strictly sorted list, keeping it sorted and free of
duplicates. -/
def insertSorted (x : ℚ) : List ℚ → List ℚ
  | [] => [x]
  | y :: ys =>
    if x < y then x :: y :: ys
    else if x = y then y :: ys
    else y :: insertSorted x ys

/-- Embedding of pandas Index.union at line 49: the sorted
duplicate-free union of the raw curve depths and the synthetic grid. -/
def sortedUnion (xs ys : List ℚ) : List ℚ := (xs ++ ys).foldr insertSorted []

/-- Embedding of Series.interpolate('index') with its default
limit_direction='forward' (line 50), evaluated at one depth d against
the raw control points (listed in ascending depth order): a depth
before the first control point stays NaN (none); between two control
points the value is linear in the depth; past the last control point
the last value is carried forward (the clamping of the underlying
np.interp, which the forward limit direction does not mask). -/
def interpAt : List (ℚ × ℚ) → ℚ → Option ℚ
  | [], _ => none
  | [(x0, y0)], d => if x0 ≤ d then some y0 else none
  | (x0, y0) :: (x1, y1) :: rest, d =>
    if d < x0 then none
    else if d ≤ x1 then some (y0 + (d - x0) * (y1 - y0) / (x1 - x0))
    else interpAt ((x1, y1) :: rest) d

/-- Value of the reindexed-then-interpolated series (lines 49-50) at one
merged depth point: the raw value where the depth is a raw sample depth,
otherwise the interpolated value. -/
def seriesValue (raw : List (ℚ × ℚ)) (d : ℚ) : Option ℚ :=
  match raw.find? (fun p => decide (p.1 = d)) with
  | some p => some p.2
  | none => interpAt raw d

/-- Embedding of the duplicate-index removal
loss_curve1[~loss_curve1.index.duplicated(keep='first')] at lines 55-56:
an entry is dropped exactly when its bucket index already appeared
earlier in the list. -/
def dedupFirst {α : Type} : List ℤ → List (ℤ × α) → List (ℤ × α)
  | _, [] => []
  | seen, e :: rest =>
    if e.1 ∈ seen then dedupFirst seen rest
    else e :: dedupFirst (e.1 :: seen) rest

/-- A loaded loss curve: a mapping from integer bucket index to the
stored cell, where a cell may hold NaN (none). -/
abbrev Curve : Type := List (ℤ × Option ℚ)

/-- The merged depth points of one curve, line 49: the union of the raw
sample depths and the synthetic grid, in ascending order. -/
def mergedPoints (raw : List (ℚ × ℚ)) (res maxd : ℚ) : List ℚ :=
  sortedUnion (raw.map Prod.fst) (arangeQ maxd res)

/-- The interpolated series with its index quantized to buckets,
lines 49-54, before duplicate removal. -/
def quantizedPoints (raw : List (ℚ × ℚ)) (res maxd : ℚ) : List (ℤ × Option ℚ) :=
  (mergedPoints raw res maxd).map
    (fun d => (constructionBucket res d, seriesValue raw d))

/-- Embedding of the per-file pipeline of load_loss_curves, lines 44-56:
reindex the raw curve onto the union of its own depths and the synthetic
grid, interpolate by index, quantize the index through division by the
resolution and the np.int32 cast, and drop duplicated bucket indices
keeping the first occurrence. -/
def buildCurve (raw : List (ℚ × ℚ)) (res maxd : ℚ) : Curve :=
  dedupFirst [] (quantizedPoints raw res maxd)

/-- Embedding of the pandas lookup loss_curve.at[depth_cm] at line 73:
the outer none models a KeyError (bucket absent), some v the stored
cell, which may itself be NaN (v = none). -/
def curveAt (curve : Curve) (i : ℤ) : Option (Option ℚ) :=
  (curve.find? (fun p => decide (p.1 = i))).map Prod.snd

/-- An asset row restricted to the columns read by calculate_perc_loss
and by the apply_losses loop body: the loss_curve column, the asset
value column, and the raw depth column of one intensity, where none
models a NaN depth. -/
structure AssetRow where
  loss_curve : String
  value : ℚ
  depth : Option ℚ
deriving DecidableEq

/-- Embedding of calculate_perc_loss, lines 62-77.  The error case
models the uncaught ValueError that int() raises on a NaN depth; the
code reaches int(asset_row[depth_col] / LOSS_CURVE_RES) only after the
curve name was found.  An unknown curve name and a KeyError of the .at
lookup are both reported and yield the Python value None, here ok
none. -/
def calculate_perc_loss (res : ℚ) (loss_curves : List (String × Curve))
    (row : AssetRow) : Except Unit (Option ℚ) :=
  match loss_curves.find? (fun c => decide (c.1 = row.loss_curve)) with
  | some c =>
    match row.depth with
    | none => .error ()
    | some d =>
      match curveAt c.2 (resolverBucket res d) with
      | some v => .ok v
      | none => .ok none
  | none => .ok none

/-- The outputs of one iteration of the per-intensity loop of
apply_losses: the two derived columns and the two per-intensity
statistics entries. -/
structure IntensityStats where
  percLoss : List (Option ℚ)
  lossValue : List (Option ℚ)
  lossSum : ℚ
  floodedAssets : ℕ
deriving DecidableEq

/-- Embedding of the Python bool() cast that astype(bool) applies at
line 105: the float 0.0 is falsy, every other float is truthy, and NaN
is truthy. -/
def floatTruthy : Option ℚ → Bool
  | none => true
  | some q => decide (q ≠ 0)

/-- Row-by-row traversal with fail-fast exception propagation: the
semantics of DataFrame.apply(axis=1) at lines 93-96, where the first
exception raised in a row aborts the whole column computation. -/
def mapExcept {α β : Type} (f : α → Except Unit β) : List α → Except Unit (List β)
  | [] => .ok []
  | a :: as =>
    match f a with
    | .error e => .error e
    | .ok b =>
      match mapExcept f as with
      | .error e => .error e
      | .ok bs => .ok (b :: bs)

/-- Embedding of the body of the per-intensity loop of apply_losses,
lines 93-105, for the depth column of one intensity: the
percentage-loss column is computed row by row through
calculate_perc_loss (an exception raised there aborts the loop), the
loss-value column is the elementwise product of the percentage column
and the value column (a missing percentage gives a missing product),
the loss sum skips missing entries (pandas sum with its default
skipna), and the flooded count is the number of rows whose raw depth
casts to True. -/
def applyLossesIntensity (res : ℚ) (loss_curves : List (String × Curve))
    (rows : List AssetRow) : Except Unit IntensityStats :=
  match mapExcept (calculate_perc_loss res loss_curves) rows with
  | .error e => .error e
  | .ok perc =>
    let lossVal := (perc.zip rows).map (fun pr => pr.1.map (fun p => p * pr.2.value))
    .ok { percLoss := perc, lossValue := lossVal,
          lossSum := (lossVal.filterMap id).sum,
          floodedAssets := (rows.filter (fun r => floatTruthy r.depth)).length }

/-- One file of the loss-curve directory as load_loss_curves sees it:
base name, extension, and the outcome of pd.read_csv on it, where the
error case models a parse exception. -/
structure CurveFile where
  basename : String
  ext : String
  content : Except Unit (List (ℚ × ℚ))

/-- Embedding of the directory scan of load_loss_curves, lines 41-57:
every file whose extension matches is parsed with pd.read_csv and its
curve is built; there is no exception handler, so a parse exception
propagates out of the function and aborts the whole load.  Files with
a different extension are skipped. -/
def load_loss_curves (res maxd : ℚ) (extension : String) :
    List CurveFile → Except Unit (List (String × Curve))
  | [] => .ok []
  | f :: fs =>
    if f.ext = extension then
      match f.content with
      | .error e => .error e
      | .ok raw =>
        match load_loss_curves res maxd extension fs with
        | .error e => .error e
        | .ok rest => .ok ((f.basename, buildCurve raw res maxd) :: rest)
    else load_loss_curves res maxd extension fs

/-- The raw samples of the low_rise curve of the spec's concrete
scenario. -/
def lowRiseRaw : List (ℚ × ℚ) := [(0, 0), (100, 1/2), (200, 1)]

/-- The low_rise curve built at resolution 10 with maximum depth 200. -/
def lowRiseCurve : Curve := buildCurve lowRiseRaw 10 200

/-- C1: for the curve built from raw samples [(0,0), (100,0.5),
(200,1)] at resolution 10 and maximum depth 200, the asset with value
100000, curve low_rise and raw depth 150 resolves to fractional loss
0.75 and monetary loss 75000 (and the intensity's loss sum is 75000
and its flooded count 1). -/
theorem low_rise_scenario :
    applyLossesIntensity 10 [("low_rise", lowRiseCurve)]
      [⟨"low_rise", 100000, some 150⟩] =
    .ok ⟨[some (3/4)], [some 75000], 75000, 1⟩ := rfl

theorem mapExcept_ok {α β : Type} {f : α → Except Unit β} :
    ∀ {l : List α} {out : List β}, mapExcept f l = .ok out →
      out.length = l.length ∧
      ∀ i a, l.get? i = some a → ∃ b, out.get? i = some b ∧ f a = .ok b := by
  intro l
  induction l with
  | nil =>
    intro out h
    cases h
    exact ⟨rfl, by intro i a ha; cases i <;> cases ha⟩
  | cons a as ih =>
    intro out h
    unfold mapExcept at h
    cases hfa : f a with
    | error e => rw [hfa] at h; cases h
    | ok b =>
      rw [hfa] at h
      cases hm : mapExcept f as with
      | error e => rw [hm] at h; cases h
      | ok bs =>
        rw [hm] at h
        cases h
        obtain ⟨hlen, hpt⟩ := ih hm
        refine ⟨by simp [hlen], ?_⟩
        intro i x hx
        cases i with
        | zero => cases hx; exact ⟨b, rfl, hfa⟩
        | succ n => exact hpt n x hx

theorem applyLossesIntensity_ok {res : ℚ} {loss_curves : List (String × Curve)}
    {rows : List AssetRow} {s : IntensityStats}
    (h : applyLossesIntensity res loss_curves rows = .ok s) :
    mapExcept (calculate_perc_loss res loss_curves) rows = .ok s.percLoss ∧
    s.lossValue = (s.percLoss.zip rows).map (fun pr => pr.1.map (fun p => p * pr.2.value)) ∧
    s.lossSum = (s.lossValue.filterMap id).sum ∧
    s.floodedAssets = (rows.filter (fun r => floatTruthy r.depth)).length := by
  unfold applyLossesIntensity at h
  cases hm : mapExcept (calculate_perc_loss res loss_curves) rows with
  | error e => rw [hm] at h; cases h
  | ok perc =>
    rw [hm] at h
    cases h
    exact ⟨rfl, rfl, rfl, rfl⟩

theorem get?_zip_eq_some {α β : Type} :
    ∀ {l1 : List α} {l2 : List β} {i : ℕ} {a : α} {b : β},
      l1.get? i = some a → l2.get? i = some b → (l1.zip l2).get? i = some (a, b) := by
  intro l1
  induction l1 with
  | nil => intro l2 i a b h _; cases i <;> cases h
  | cons x xs ih =>
    intro l2 i a b h1 h2
    cases l2 with
    | nil => cases i <;> cases h2
    | cons y ys =>
      cases i with
      | zero => cases h1; cases h2; rfl
      | succ n => exact ih h1 h2

/-- C7: for every asset row i (in every intensity's loop iteration),
the loss-value column entry is the percentage-loss entry multiplied by
the asset value; a missing percentage loss yields a missing loss value,
not zero; and the intensity's loss sum is the sum of the non-missing
loss values only, missing entries being excluded rather than coerced
to zero. -/
theorem loss_value_product (res : ℚ) (loss_curves : List (String × Curve))
    (rows : List AssetRow) (s : IntensityStats)
    (h : applyLossesIntensity res loss_curves rows = .ok s) :
    (∀ (i : ℕ) (v : Option ℚ) (r : AssetRow),
      s.percLoss.get? i = some v → rows.get? i = some r →
      s.lossValue.get? i = some (v.map (fun p => p * r.value))) ∧
    (∀ i : ℕ, s.percLoss.get? i = some none → s.lossValue.get? i = some none) ∧
    s.lossSum = (s.lossValue.filterMap id).sum := by
  obtain ⟨hm, hlv, hsum, _⟩ := applyLossesIntensity_ok h
  have hA : ∀ (i : ℕ) (v : Option ℚ) (r : AssetRow),
      s.percLoss.get? i = some v → rows.get? i = some r →
      s.lossValue.get? i = some (v.map (fun p => p * r.value)) := by
    intro i v r hp hr
    rw [hlv, List.get?_eq_getElem?, List.getElem?_map, ← List.get?_eq_getElem?,
        get?_zip_eq_some hp hr]
    rfl
  refine ⟨hA, ?_, hsum⟩
  intro i hp
  obtain ⟨hlen, _⟩ := mapExcept_ok hm
  have hi : i < s.percLoss.length := by
    rw [List.get?_eq_getElem?] at hp
    exact (List.getElem?_eq_some.mp hp).1
  have hi2 : i < rows.length := hlen ▸ hi
  obtain ⟨r, hr⟩ : ∃ r, rows.get? i = some r := by
    rw [List.get?_eq_getElem?]
    exact ⟨rows[i], List.getElem?_eq_some.mpr ⟨hi2, rfl⟩⟩
  simpa using hA i none r hp hr

/-- Witness for loss_value_product: two assets, one resolving to 3/4 of
100000 and one with an unknown curve; the missing loss value is missing
and the loss sum 75000 counts only the resolved asset. -/
theorem loss_value_product_witness :
    (⟨[some (3/4), none], [some 75000, none], 75000, 2⟩ : IntensityStats).lossValue.get? 0 =
      some (Option.map (fun p => p * (100000 : ℚ)) (some (3/4))) ∧
    (⟨[some (3/4), none], [some 75000, none], 75000, 2⟩ : IntensityStats).lossValue.get? 1 =
      some none ∧
    (⟨[some (3/4), none], [some 75000, none], 75000, 2⟩ : IntensityStats).lossSum =
      ((⟨[some (3/4), none], [some 75000, none], 75000, 2⟩ : IntensityStats).lossValue.filterMap id).sum := by
  have h := loss_value_product 10 [("low_rise", lowRiseCurve)]
    [⟨"low_rise", 100000, some 150⟩, ⟨"nope", 7, some 1⟩]
    ⟨[some (3/4), none], [some 75000, none], 75000, 2⟩ (by rfl)
  exact ⟨h.1 0 (some (3/4)) ⟨"low_rise", 100000, some 150⟩ rfl rfl, h.2.1 1 rfl, h.2.2⟩

/-- C9: the per-intensity flooded-assets statistic equals the number of
rows whose raw depth column value casts to True under bool(), and it
does not depend on the loss curves (hence not on any computed loss
value). -/
theorem flooded_count_raw_depth (res : ℚ) (c1 c2 : List (String × Curve))
    (rows : List AssetRow) (s1 s2 : IntensityStats)
    (h1 : applyLossesIntensity res c1 rows = .ok s1)
    (h2 : applyLossesIntensity res c2 rows = .ok s2) :
    s1.floodedAssets = (rows.filter (fun r => floatTruthy r.depth)).length ∧
    s1.floodedAssets = s2.floodedAssets := by
  obtain ⟨_, _, _, hf1⟩ := applyLossesIntensity_ok h1
  obtain ⟨_, _, _, hf2⟩ := applyLossesIntensity_ok h2
  exact ⟨hf1, by rw [hf1, hf2]⟩

/-- Witness for flooded_count_raw_depth: one asset of depth 50 and one
of depth 0; the count is 1 whether the store is empty or holds the
low_rise curve (under which the flooded asset has loss 1/4 and the dry
one loss 0). -/
theorem flooded_count_raw_depth_witness :
    (⟨[none, none], [none, none], 0, 1⟩ : IntensityStats).floodedAssets =
      (([⟨"low_rise", 1, some 50⟩, ⟨"low_rise", 1, some 0⟩] : List AssetRow).filter
        (fun r => floatTruthy r.depth)).length ∧
    (⟨[none, none], [none, none], 0, 1⟩ : IntensityStats).floodedAssets =
      (⟨[some (1/4), some 0], [some (1/4), some 0], 1/4, 1⟩ : IntensityStats).floodedAssets :=
  flooded_count_raw_depth 10 [] [("low_rise", lowRiseCurve)]
    [⟨"low_rise", 1, some 50⟩, ⟨"low_rise", 1, some 0⟩]
    ⟨[none, none], [none, none], 0, 1⟩
    ⟨[some (1/4), some 0], [some (1/4), some 0], 1/4, 1⟩ (by rfl) (by rfl)

/-- C10: an asset row whose raw depth is NaN is counted as flooded,
because the bool() cast treats NaN as truthy: prepending such a row
increases the intensity's flooded count by exactly one. -/
theorem nan_depth_flooded (res : ℚ) (loss_curves : List (String × Curve))
    (a : AssetRow) (rows : List AssetRow) (s s0 : IntensityStats)
    (ha : a.depth = none)
    (h : applyLossesIntensity res loss_curves (a :: rows) = .ok s)
    (h0 : applyLossesIntensity res loss_curves rows = .ok s0) :
    floatTruthy a.depth = true ∧ s.floodedAssets = s0.floodedAssets + 1 := by
  obtain ⟨_, _, _, hf⟩ := applyLossesIntensity_ok h
  obtain ⟨_, _, _, hf0⟩ := applyLossesIntensity_ok h0
  have ht : floatTruthy a.depth = true := by rw [ha]; rfl
  refine ⟨ht, ?_⟩
  rw [hf, hf0]
  simp [List.filter_cons, ht]

/-- Witness for nan_depth_flooded: a single asset with NaN depth and an
unknown curve; its flooded count is 1 while the empty table's is 0. -/
theorem nan_depth_flooded_witness :
    floatTruthy (AssetRow.mk "unknown" 5 none).depth = true ∧
    (⟨[none], [none], 0, 1⟩ : IntensityStats).floodedAssets =
      (⟨[], [], 0, 0⟩ : IntensityStats).floodedAssets + 1 :=
  nan_depth_flooded 10 [] ⟨"unknown", 5, none⟩ []
    ⟨[none], [none], 0, 1⟩ ⟨[], [], 0, 0⟩ rfl (by rfl) (by rfl)

theorem dedupFirst_keys {α : Type} :
    ∀ (seen : List ℤ) (l : List (ℤ × α)),
      ((dedupFirst seen l).map Prod.fst).Nodup ∧
      ∀ b ∈ (dedupFirst seen l).map Prod.fst, b ∉ seen := by
  intro seen l
  induction l generalizing seen with
  | nil => exact ⟨List.nodup_nil, by intro b hb; cases hb⟩
  | cons e rest ih =>
    unfold dedupFirst
    by_cases he : e.1 ∈ seen
    · rw [if_pos he]; exact ih seen
    · rw [if_neg he]
      obtain ⟨hnd, hns⟩ := ih (e.1 :: seen)
      refine ⟨?_, ?_⟩
      · rw [List.map_cons]
        refine List.nodup_cons.mpr ⟨?_, hnd⟩
        intro hmem
        exact hns e.1 hmem (List.mem_cons_self e.1 seen)
      · intro b hb
        rw [List.map_cons] at hb
        rcases List.mem_cons.mp hb with hb1 | hb2
        · subst hb1; exact he
        · intro hbs; exact hns b hb2 (List.mem_cons_of_mem _ hbs)

theorem dedupFirst_find {α : Type} :
    ∀ (seen : List ℤ) (l : List (ℤ × α)) (b : ℤ), b ∉ seen →
      (dedupFirst seen l).find? (fun p => decide (p.1 = b)) =
        l.find? (fun p => decide (p.1 = b)) := by
  intro seen l
  induction l generalizing seen with
  | nil => intro b hb; rfl
  | cons e rest ih =>
    intro b hb
    unfold dedupFirst
    by_cases he : e.1 ∈ seen
    · rw [if_pos he]
      have hd : decide (e.1 = b) = false :=
        decide_eq_false (fun h => hb (h ▸ he))
      simp only [List.find?_cons, hd]
      exact ih seen b hb
    · rw [if_neg he]
      by_cases hdec : e.1 = b
      · have hd : decide (e.1 = b) = true := decide_eq_true hdec
        simp [List.find?_cons, hd]
      · have hd : decide (e.1 = b) = false := decide_eq_false hdec
        simp only [List.find?_cons, hd]
        refine ih (e.1 :: seen) b ?_
        intro hmem
        rcases List.mem_cons.mp hmem with h1 | h2
        · exact hdec h1.symm
        · exact hb h2

theorem insertSorted_mem {x z : ℚ} :
    ∀ {l : List ℚ}, z ∈ insertSorted x l ↔ z = x ∨ z ∈ l := by
  intro l
  induction l with
  | nil => simp [insertSorted]
  | cons y ys ih =>
    unfold insertSorted
    by_cases h1 : x < y
    · rw [if_pos h1]; simp [List.mem_cons]
    · rw [if_neg h1]
      by_cases h2 : x = y
      · subst h2; rw [if_pos rfl]; simp [List.mem_cons]
      · rw [if_neg h2]
        simp only [List.mem_cons, ih]
        tauto

theorem insertSorted_pairwise {x : ℚ} :
    ∀ {l : List ℚ}, l.Pairwise (· < ·) → (insertSorted x l).Pairwise (· < ·) := by
  intro l
  induction l with
  | nil => intro _; simp [insertSorted]
  | cons y ys ih =>
    intro h
    rw [List.pairwise_cons] at h
    obtain ⟨hy, hys⟩ := h
    unfold insertSorted
    by_cases h1 : x < y
    · rw [if_pos h1]
      refine List.pairwise_cons.mpr ⟨?_, List.pairwise_cons.mpr ⟨hy, hys⟩⟩
      intro z hz
      rcases List.mem_cons.mp hz with rfl | hz2
      · exact h1
      · exact lt_trans h1 (hy z hz2)
    · rw [if_neg h1]
      by_cases h2 : x = y
      · rw [if_pos h2]; exact List.pairwise_cons.mpr ⟨hy, hys⟩
      · rw [if_neg h2]
        have hyx : y < x := lt_of_le_of_ne (le_of_not_lt h1) (Ne.symm h2)
        refine List.pairwise_cons.mpr ⟨?_, ih hys⟩
        intro z hz
        rcases insertSorted_mem.mp hz with rfl | hz2
        · exact hyx
        · exact hy z hz2

theorem sortedUnion_pairwise (xs ys : List ℚ) :
    (sortedUnion xs ys).Pairwise (· < ·) := by
  rw [sortedUnion]
  generalize xs ++ ys = L
  induction L with
  | nil => exact List.Pairwise.nil
  | cons a l ih => exact insertSorted_pairwise ih

/-- C8: after Build, the bucket indices of a curve are unique: the keys
of the deduplicated mapping contain no duplicates, a lookup in the
deduplicated mapping returns exactly the first matching entry of the
quantized point list, and that list is ordered by strictly ascending
depth (the merged depth points are pairwise increasing), so for a
bucket hit by several merged depths the entry of the smallest depth is
the one kept. -/
theorem buckets_unique_first_occurrence (raw : List (ℚ × ℚ)) (res maxd : ℚ) :
    ((buildCurve raw res maxd).map Prod.fst).Nodup ∧
    (∀ b : ℤ, (buildCurve raw res maxd).find? (fun p => decide (p.1 = b)) =
      (quantizedPoints raw res maxd).find? (fun p => decide (p.1 = b))) ∧
    (mergedPoints raw res maxd).Pairwise (· < ·) := by
  refine ⟨(dedupFirst_keys [] _).1,
    fun b => dedupFirst_find [] _ b (by intro h; cases h), ?_⟩
  exact sortedUnion_pairwise _ _

/-- C4, counterexample: merged grid points outside the raw depth range
are not absent from the mapping.  For the curve with raw samples
[(100,0.5), (200,1)], the merged point of depth 0 lies below the raw
range, yet bucket 0 is present in the mapping, holding NaN, and the
lookup is a hit returning NaN rather than a miss; for the curve with
raw samples [(0,0), (100,0.5)], the merged point of depth 150 lies
above the raw range, yet bucket 15 is present holding the extrapolated
value 0.5. -/
theorem out_of_range_buckets_present :
    curveAt (buildCurve [(100, 1/2), (200, 1)] 10 200) 0 = some none ∧
    curveAt (buildCurve [(0, 0), (100, 1/2)] 10 200) 15 = some (some (1/2)) :=
  ⟨rfl, rfl⟩

theorem getLast?_mem {α : Type} {l : List α} {a : α} (h : l.getLast? = some a) :
    a ∈ l := by
  obtain ⟨ys, rfl⟩ := List.getLast?_eq_some_iff.mp h
  simp

theorem pairwise_last_max :
    ∀ (l : List ℚ) (a : ℚ), l.getLast? = some a → l.Pairwise (· < ·) →
      ∀ x ∈ l, x ≤ a := by
  intro l
  induction l with
  | nil => intro a ha; cases ha
  | cons y ys ih =>
    intro a ha hp x hx
    cases ys with
    | nil =>
      rw [List.getLast?_singleton] at ha
      cases ha
      rcases List.mem_singleton.mp hx with rfl
      exact le_refl _
    | cons z zs =>
      rw [List.getLast?_cons_cons] at ha
      rw [List.pairwise_cons] at hp
      rcases List.mem_cons.mp hx with rfl | hx2
      · exact le_of_lt (hp.1 a (getLast?_mem ha))
      · exact ih a ha hp.2 x hx2

theorem seriesValue_below (raw : List (ℚ × ℚ)) (x0 y0 : ℚ)
    (hh : raw.head? = some (x0, y0)) (hs : (raw.map Prod.fst).Pairwise (· < ·))
    (d : ℚ) (hd : d < x0) : seriesValue raw d = none := by
  cases raw with
  | nil => cases hh
  | cons p rest =>
    rw [List.head?_cons] at hh
    cases hh
    rw [List.map_cons, List.pairwise_cons] at hs
    have hfind : ((x0, y0) :: rest).find? (fun p => decide (p.1 = d)) = none := by
      rw [List.find?_eq_none]
      intro x hx
      simp only [decide_eq_true_eq]
      rcases List.mem_cons.mp hx with rfl | hx2
      · exact fun heq => lt_irrefl d (heq ▸ hd)
      · intro heq
        have : x0 < x.1 := hs.1 x.1 (List.mem_map_of_mem Prod.fst hx2)
        rw [heq] at this
        exact lt_irrefl d (lt_trans hd this)
    rw [seriesValue, hfind]
    cases rest with
    | nil => simp only [interpAt]; rw [if_neg (not_le.mpr hd)]
    | cons q r =>
      obtain ⟨x1, y1⟩ := q
      simp only [interpAt]
      rw [if_pos hd]

theorem interpAt_ge_last :
    ∀ (raw : List (ℚ × ℚ)) (xl yl : ℚ), raw.getLast? = some (xl, yl) →
      (raw.map Prod.fst).Pairwise (· < ·) →
      ∀ d, xl ≤ d → interpAt raw d = some yl := by
  intro raw
  induction raw with
  | nil => intro xl yl hl; cases hl
  | cons p rest ih =>
    intro xl yl hl hs d hd
    obtain ⟨x0, y0⟩ := p
    cases rest with
    | nil =>
      rw [List.getLast?_singleton] at hl
      cases hl
      simp only [interpAt]
      rw [if_pos hd]
    | cons q r =>
      obtain ⟨x1, y1⟩ := q
      rw [List.getLast?_cons_cons] at hl
      rw [List.map_cons, List.pairwise_cons] at hs
      obtain ⟨h0, hs1⟩ := hs
      have hx01 : x0 < x1 := h0 x1 (by simp)
      have hx1l : x1 ≤ xl := by
        have hmem : (xl, yl) ∈ (x1, y1) :: r := getLast?_mem hl
        rcases List.mem_cons.mp hmem with heq | hmem2
        · rw [show x1 = (xl, yl).1 from congrArg Prod.fst heq.symm]
        · rw [List.map_cons, List.pairwise_cons] at hs1
          exact le_of_lt (hs1.1 xl (List.mem_map_of_mem Prod.fst hmem2))
      simp only [interpAt]
      rw [if_neg (not_lt.mpr (le_of_lt (lt_of_lt_of_le hx01 (le_trans hx1l hd))))]
      by_cases hdx1 : d ≤ x1
      · rw [if_pos hdx1]
        have hdeq : d = x1 := le_antisymm hdx1 (le_trans hx1l hd)
        have hxleq : xl = x1 := le_antisymm (by rw [hdeq] at hd; exact hd) hx1l
        have hr : r = [] := by
          cases r with
          | nil => rfl
          | cons w ws =>
            exfalso
            have hmem : (xl, yl) ∈ (x1, y1) :: w :: ws := getLast?_mem hl
            rw [List.getLast?_cons_cons] at hl
            have hwmem : (xl, yl) ∈ w :: ws := getLast?_mem hl
            rw [List.map_cons, List.pairwise_cons] at hs1
            have : x1 < xl := hs1.1 xl (List.mem_map_of_mem Prod.fst hwmem)
            rw [hxleq] at this
            exact lt_irrefl x1 this
        subst hr
        rw [List.getLast?_singleton] at hl
        have hyl : y1 = yl := congrArg Prod.snd (Option.some.inj hl)
        have hne : x1 - x0 ≠ 0 := sub_ne_zero_of_ne (ne_of_gt hx01)
        rw [hdeq, hyl]
        congr 1
        field_simp
      · rw [if_neg hdx1]
        exact ih xl yl hl hs1 d hd

theorem seriesValue_above (raw : List (ℚ × ℚ)) (xl yl : ℚ)
    (hl : raw.getLast? = some (xl, yl)) (hs : (raw.map Prod.fst).Pairwise (· < ·))
    (d : ℚ) (hd : xl < d) : seriesValue raw d = some yl := by
  have hfind : raw.find? (fun p => decide (p.1 = d)) = none := by
    rw [List.find?_eq_none]
    intro x hx
    simp only [decide_eq_true_eq]
    intro heq
    have hmax : x.1 ≤ xl := by
      refine pairwise_last_max (raw.map Prod.fst) xl ?_ hs x.1
        (List.mem_map_of_mem Prod.fst hx)
      rw [List.getLast?_map, hl]
      rfl
    rw [heq] at hmax
    exact absurd hd (not_lt.mpr hmax)
  rw [seriesValue, hfind]
  exact interpAt_ge_last raw xl yl hl hs d (le_of_lt hd)

theorem bucket_present (raw : List (ℚ × ℚ)) (res maxd d : ℚ)
    (hd : d ∈ mergedPoints raw res maxd) :
    (curveAt (buildCurve raw res maxd) (constructionBucket res d)).isSome = true := by
  rw [curveAt, buildCurve, dedupFirst_find [] _ _ (by intro h; cases h)]
  have hsome : ((quantizedPoints raw res maxd).find?
      (fun p => decide (p.1 = constructionBucket res d))).isSome = true := by
    rw [List.find?_isSome]
    exact ⟨(constructionBucket res d, seriesValue raw d),
      List.mem_map_of_mem _ hd, by simp⟩
  cases hf : (quantizedPoints raw res maxd).find?
      (fun p => decide (p.1 = constructionBucket res d)) with
  | none => rw [hf] at hsome; cases hsome
  | some p => rfl

/-- C4, amended: interpolation leaves a merged point below the smallest
raw depth undefined (NaN), but its bucket stays present in the mapping
holding NaN, so a lookup against it is a hit returning NaN rather than
a miss; a merged point above the largest raw depth is not left
undefined: it receives the last raw loss value, carried forward beyond
the raw range.  Every merged point's bucket is present in the built
mapping. -/
theorem out_of_range_behavior (raw : List (ℚ × ℚ)) (x0 y0 xl yl : ℚ)
    (hh : raw.head? = some (x0, y0)) (hl : raw.getLast? = some (xl, yl))
    (hs : (raw.map Prod.fst).Pairwise (· < ·)) :
    (∀ d, d < x0 → seriesValue raw d = none) ∧
    (∀ d, xl < d → seriesValue raw d = some yl) ∧
    (∀ res maxd : ℚ, ∀ d ∈ mergedPoints raw res maxd,
      (curveAt (buildCurve raw res maxd) (constructionBucket res d)).isSome = true) :=
  ⟨fun d hd => seriesValue_below raw x0 y0 hh hs d hd,
   fun d hd => seriesValue_above raw xl yl hl hs d hd,
   fun res maxd d hd => bucket_present raw res maxd d hd⟩

/-- Witness for out_of_range_behavior on the curve with raw samples
[(100, 1/2), (200, 1)]: depth 50 below the range stays NaN, depth 250
above the range receives the carried-forward value 1, and the bucket of
the merged point of depth 0 is present in the built mapping. -/
theorem out_of_range_behavior_witness :
    seriesValue [((100 : ℚ), (1 : ℚ)/2), (200, 1)] 50 = none ∧
    seriesValue [((100 : ℚ), (1 : ℚ)/2), (200, 1)] 250 = some 1 ∧
    (curveAt (buildCurve [((100 : ℚ), (1 : ℚ)/2), (200, 1)] 10 200)
      (constructionBucket 10 0)).isSome = true := by
  have h := out_of_range_behavior [((100 : ℚ), 1/2), (200, 1)] 100 (1/2) 200 1
    rfl rfl (by decide)
  exact ⟨h.1 50 (by norm_num), h.2.1 250 (by norm_num), h.2.2 10 200 0 (by decide)⟩

/-- C5, counterexample: with a directory holding a malformed curve file
followed by a well-formed one, both with the configured extension, the
load does not skip the malformed file and continue: it aborts with the
parse exception and returns no curves at all. -/
theorem parse_error_not_skipped :
    load_loss_curves 10 200 ".csv"
      [⟨"bad", ".csv", .error ()⟩, ⟨"good", ".csv", .ok lowRiseRaw⟩] =
    .error () := rfl

/-- C5, amended: if any file with the configured extension cannot be
parsed, the parse exception propagates and the whole load aborts with
it, returning no curves at all (not even those of well-formed files);
only files whose extension does not match are skipped, without
affecting the rest of the load. -/
theorem load_abort_behavior (res maxd : ℚ) (extension : String) :
    (∀ (files : List CurveFile) (f : CurveFile), f ∈ files →
      f.ext = extension → f.content = .error () →
      load_loss_curves res maxd extension files = .error ()) ∧
    (∀ (g : CurveFile) (fs : List CurveFile), g.ext ≠ extension →
      load_loss_curves res maxd extension (g :: fs) =
        load_loss_curves res maxd extension fs) := by
  constructor
  · intro files f hmem hext hbad
    induction files with
    | nil => cases hmem
    | cons g fs ih =>
      unfold load_loss_curves
      rcases List.mem_cons.mp hmem with rfl | hmem2
      · rw [if_pos hext, hbad]
      · by_cases hg : g.ext = extension
        · rw [if_pos hg]
          cases hc : g.content with
          | error e => cases e; rfl
          | ok raw => rw [ih hmem2]
        · rw [if_neg hg]
          exact ih hmem2
  · intro g fs hg
    conv_lhs => rw [load_loss_curves]
    rw [if_neg hg]

/-- Witness for load_abort_behavior: a well-formed file followed by a
malformed one still makes the whole load abort, and a file with a
different extension is skipped. -/
theorem load_abort_behavior_witness :
    load_loss_curves 10 200 ".csv"
      [⟨"good", ".csv", .ok lowRiseRaw⟩, ⟨"bad", ".csv", .error ()⟩] = .error () ∧
    load_loss_curves 10 200 ".csv" [⟨"skip", ".txt", .ok lowRiseRaw⟩] =
      load_loss_curves 10 200 ".csv" [] :=
  ⟨(load_abort_behavior 10 200 ".csv").1
      [⟨"good", ".csv", .ok lowRiseRaw⟩, ⟨"bad", ".csv", .error ()⟩]
      ⟨"bad", ".csv", .error ()⟩ (by simp) rfl rfl,
   (load_abort_behavior 10 200 ".csv").2 ⟨"skip", ".txt", .ok lowRiseRaw⟩ []
      (by decide)⟩

/-- C6, amended: for every asset row whose raw depth is a number (not
NaN), the resolver never raises: it always returns a value; an unknown
curve name yields the explicit no-value result, and a found curve with
the computed bucket absent from its mapping also yields the no-value
result, which the caller stores as a missing value.  Only a NaN raw
depth combined with a known curve name escapes this policy: there the
int() conversion raises and aborts the run (see nan_depth_raises). -/
theorem resolver_nonfatal_on_number (res : ℚ) (loss_curves : List (String × Curve))
    (row : AssetRow) (d : ℚ) (hd : row.depth = some d) :
    (∃ v, calculate_perc_loss res loss_curves row = .ok v) ∧
    (loss_curves.find? (fun c => decide (c.1 = row.loss_curve)) = none →
      calculate_perc_loss res loss_curves row = .ok none) ∧
    (∀ c, loss_curves.find? (fun c => decide (c.1 = row.loss_curve)) = some c →
      curveAt c.2 (resolverBucket res d) = none →
      calculate_perc_loss res loss_curves row = .ok none) := by
  refine ⟨?_, ?_, ?_⟩
  · cases hf : loss_curves.find? (fun c => decide (c.1 = row.loss_curve)) with
    | none => exact ⟨none, by simp [calculate_perc_loss, hf]⟩
    | some c =>
      cases ha : curveAt c.2 (resolverBucket res d) with
      | none => exact ⟨none, by simp [calculate_perc_loss, hf, hd, ha]⟩
      | some v => exact ⟨v, by simp [calculate_perc_loss, hf, hd, ha]⟩
  · intro hf
    simp [calculate_perc_loss, hf]
  · intro c hf ha
    simp [calculate_perc_loss, hf, hd, ha]

/-- Witness for resolver_nonfatal_on_number: an asset with numeric
depth 5 against an empty curve store resolves, without raising, to the
no-value result. -/
theorem resolver_nonfatal_on_number_witness :
    (∃ v, calculate_perc_loss 10 [] ⟨"unknown", 1, some 5⟩ = .ok v) ∧
    (([] : List (String × Curve)).find?
        (fun c => decide (c.1 = (AssetRow.mk "unknown" 1 (some 5)).loss_curve)) = none →
      calculate_perc_loss 10 [] ⟨"unknown", 1, some 5⟩ = .ok none) ∧
    (∀ c, ([] : List (String × Curve)).find?
        (fun c => decide (c.1 = (AssetRow.mk "unknown" 1 (some 5)).loss_curve)) = some c →
      curveAt c.2 (resolverBucket 10 5) = none →
      calculate_perc_loss 10 [] ⟨"unknown", 1, some 5⟩ = .ok none) :=
  resolver_nonfatal_on_number 10 [] ⟨"unknown", 1, some 5⟩ 5 rfl

/-- C6, counterexample: for an asset row whose curve name is present in
the store but whose raw depth is NaN, the resolver raises (the int()
conversion of NaN raises ValueError, and nothing catches it), instead
of returning a no-value result. -/
theorem nan_depth_raises :
    calculate_perc_loss 10 [("low_rise", lowRiseCurve)]
      ⟨"low_rise", 100000, none⟩ = .error () := rfl

end LossModel
